import Mathlib

/-!
Verification of the LCP Query Iteration Engine result pipeline.

Shallow embedding of the result-aggregation, status, batch-selection and
failure-reporting functions of the repository:

* `_make_kwic_line`, `_add_results`, `_union_results` from `src/backend/utils.py`
* `_get_status`, the primary-success callback status logic and
  `_general_failure` from `src/backend/callbacks.py`
* `QueryIteration.decide_batch` and `QueryIteration.from_manual`'s
  done-batch recording from `src/lcpvian/qi.py`
* the replay filtering of `QueryService.send_all_data` from
  `src/lcpvian/query_service.py`

Python values that matter to the control flow are modelled explicitly:
heterogeneous row cells as `PyAtom` (with Python's `str()` as `pyStr`),
the `False | None | int` arguments as `Option Int`, and the
`-1 | False | None | int` quota as `PyOptInt`.  Exceptions are modelled
with `Except PyErr`.
-/

/-- A cell of a result row: Python ints and strings as they appear in the
match tuples and prepared-segment rows. -/
inductive PyAtom where
  | int (n : Int)
  | str (s : String)
deriving DecidableEq, Repr

/-- Python `str()` on a row cell. -/
def pyStr : PyAtom → String
  | .int n => toString n
  | .str s => s

/-- One entry of the descriptor's `result_sets` list; only its `.get("type")`
is inspected by the aggregator. -/
structure RSetDesc where
  rsType : Option String
deriving DecidableEq, Repr

/-- The payload of a raw result line: the key-0 descriptor dict (modelled by
its `result_sets` list) or a data row. -/
inductive Payload where
  | dict (resultSets : List RSetDesc)
  | row (r : List PyAtom)
deriving DecidableEq, Repr

/-- A raw result line `(result_set_index, payload)` as returned by a job. -/
abbrev RLine := Int × Payload

/-- Exceptions raised by the embedded Python code. -/
inductive PyErr where
  | valueError
  | indexError
  | typeError
  | assertError
  | zeroDivisionError
deriving DecidableEq, Repr

/-- Lookup in an insertion-ordered association list (a Python dict). -/
def assocGet {α : Type} (m : List (Int × α)) (k : Int) : Option α :=
  (m.find? (fun p => p.1 = k)).map Prod.snd

/-- Update in an insertion-ordered association list: replace the first
binding of `k`, or append a new binding at the end (dict insertion order). -/
def assocSet {α : Type} (m : List (Int × α)) (k : Int) (v : α) : List (Int × α) :=
  match m with
  | [] => [(k, v)]
  | (k', v') :: rest => if k' = k then (k, v) :: rest else (k', v') :: assocSet rest k v

/-- The result bundle built by `_add_results` and accumulated by
`_union_results`.  The reserved key `0` (the descriptor dict) is kept apart
from the list buckets, mirroring the `if not key` branches of the source. -/
structure Bundle where
  desc : Option Payload
  buckets : List (Int × List Payload)
deriving DecidableEq, Repr

/-- `bundle[key] = [rest]` or `bundle[key].append(rest)` for a non-zero key. -/
def appendBucket (b : Bundle) (k : Int) (p : Payload) : Bundle :=
  { b with buckets := assocSet b.buckets k (((assocGet b.buckets k).getD []) ++ [p]) }

/-- `counts[key]` of the `defaultdict(int)`. -/
def getCount (cs : List (Int × Int)) (k : Int) : Int :=
  ((assocGet cs k).getD 0)

/-- `counts[key] += 1` of the `defaultdict(int)`. -/
def incrCount (cs : List (Int × Int)) (k : Int) : List (Int × Int) :=
  assocSet cs k (getCount cs k + 1)

/-- Indices (1-based) of the result sets whose `type` is `"plain"`:
`[i for i, r in enumerate(res, start=1) if r.get("type") == "plain"]`. -/
def plainIndices (rs : List RSetDesc) : List Int :=
  rs.enum.filterMap (fun p =>
    if p.2.rsType = some "plain" then some ((p.1 : Int) + 1) else none)

/-- Scan of the raw result for the first key-0 line, from which the set of
plain indices is read (`_add_results`, branch without `result_sets`).
A key-0 line whose payload is not a dict raises at the subscript. -/
def scanKwics : List RLine → Except PyErr (List Int)
  | [] => .ok []
  | (k, p) :: rest =>
    if k = 0 then
      match p with
      | .dict rs => .ok (plainIndices rs)
      | .row _ => .error .typeError
    else scanKwics rest

/-- The set of plain (`kwic`) indices of `_add_results`: taken from the
truthy `result_sets` argument when given (its `result_sets` list), otherwise
from the descriptor line of the raw result. -/
def computeKwics (result : List RLine) (result_sets : Option (List RSetDesc)) :
    Except PyErr (List Int) :=
  match result_sets with
  | some rs => .ok (plainIndices rs)
  | none => scanKwics result

/-- `_make_kwic_line(original, sents)` from `src/backend/utils.py`: find the
sentence whose stringified id equals the stringified id of the match row and
splice it in; raise `ValueError` when no sentence matches, `IndexError` when
a row is empty. -/
def _make_kwic_line (original : List PyAtom) : List (List PyAtom) → Except PyErr (List PyAtom)
  | [] => .error .valueError
  | sent :: more =>
    match sent with
    | [] => .error .indexError
    | s0 :: srest =>
      match original with
      | [] => .error .indexError
      | o0 :: orest =>
        if pyStr s0 = pyStr o0 then
          .ok (o0 :: (PyAtom.str (pyStr s0) :: srest) ++ orest)
        else _make_kwic_line (o0 :: orest) more

/-- The main `for line in result` loop of `_add_results`.  `offset` and
`restart` model the Python `False | None | int` values as `Option Int`
(`none` for the falsy non-int values).  The local `count` of the source is
initialised to `0` and never incremented, exactly as in the source. -/
def addLoop (kwics : List Int) (so_far : Int) (unlimited : Bool)
    (offset restart : Option Int) (total_requested : Int) (kwic : Bool)
    (sents : List (List PyAtom)) :
    Bundle → List (Int × Int) → List RLine → Except PyErr (Bundle × List (Int × Int))
  | bundle, counts, [] => .ok (bundle, counts)
  | bundle, counts, (key, rest) :: lines =>
    if key = 0 then
      match rest with
      | .dict rs =>
        addLoop kwics so_far unlimited offset restart total_requested kwic sents
          { bundle with desc := some (.dict rs) } counts lines
      | .row _ => .error .assertError
    else if key ∈ kwics ∧ kwic = false then
      addLoop kwics so_far unlimited offset restart total_requested kwic sents
        bundle (incrCount counts key) lines
    else if key ∈ kwics ∧ kwic = true then
      let counts' := incrCount counts key
      let count : Int := 0
      if unlimited = false ∧ (offset.getD 0) ≠ 0 ∧ count < offset.getD 0 then
        addLoop kwics so_far unlimited offset restart total_requested kwic sents
          bundle counts' lines
      else if restart.isSome ∧ getCount counts' key < restart.getD 0 then
        addLoop kwics so_far unlimited offset restart total_requested kwic sents
          bundle counts' lines
      else if unlimited = false ∧
          so_far + (((assocGet bundle.buckets key).getD []).length : Int) ≥ total_requested then
        addLoop kwics so_far unlimited offset restart total_requested kwic sents
          bundle counts' lines
      else
        match rest with
        | .dict _ => .error .typeError
        | .row r =>
          match _make_kwic_line r sents with
          | .error e => .error e
          | .ok line =>
            addLoop kwics so_far unlimited offset restart total_requested kwic sents
              (appendBucket bundle key (.row line)) counts' lines
    else if kwic = true then
      addLoop kwics so_far unlimited offset restart total_requested kwic sents
        bundle counts lines
    else
      addLoop kwics so_far unlimited offset restart total_requested kwic sents
        (appendBucket bundle key rest) counts lines

/-- Python `l[:n]` for a possibly negative `n`. -/
def pySliceTo {α : Type} (n : Int) (l : List α) : List α :=
  if 0 ≤ n then l.take n.toNat else l.take (l.length - (-n).toNat)

/-- One step of the post-loop truncation of `_add_results`:
`if len(bundle[k]) > total_requested: bundle[k] = bundle[k][:total_requested]`. -/
def truncStep (total_requested : Int) (acc : Bundle × Option Int) (k : Int) :
    Bundle × Option Int :=
  match assocGet acc.1.buckets k with
  | none => acc
  | some v =>
    if (v.length : Int) > total_requested then
      ({ acc.1 with buckets := assocSet acc.1.buckets k (pySliceTo total_requested v) },
        some total_requested)
    else acc

/-- `_add_results` from `src/backend/utils.py` (lines 214-294): compute the
plain indices, run the per-line loop, truncate every plain bucket to
`total_requested`, and compute `n_results` (falling back to
`counts[list(kwics)[0]]`, an `IndexError` when there is no plain index). -/
def _add_results (result : List RLine) (so_far : Int) (unlimited : Bool)
    (offset restart : Option Int) (total_requested : Int) (kwic : Bool)
    (sents : List (List PyAtom)) (result_sets : Option (List RSetDesc)) :
    Except PyErr (Bundle × Int) := do
  let kwics ← computeKwics result result_sets
  let (bundle, counts) ←
    addLoop kwics so_far unlimited offset restart total_requested kwic sents
      { desc := none, buckets := [] } [] result
  let folded := kwics.foldl (truncStep total_requested) (bundle, none)
  match folded.2 with
  | some n => .ok (folded.1, n)
  | none =>
    match kwics with
    | [] => .error .indexError
    | k0 :: _ => .ok (folded.1, getCount counts k0)

/-- `_union_results(so_far, incoming)` from `src/backend/utils.py` (lines
297-311): the key-0 descriptor of `so_far` is kept once present; every
other key of `incoming` extends the corresponding bucket of `so_far`
(`so_far[k] += v`, creating an empty bucket first when missing). -/
def _union_results (so_far incoming : Bundle) : Bundle :=
  { desc :=
      match so_far.desc with
      | some d => some d
      | none => incoming.desc
    buckets :=
      incoming.buckets.foldl
        (fun bs kv => assocSet bs kv.1 (((assocGet bs kv.1).getD []) ++ kv.2)) so_far.buckets }

/-- The Python value space of `total_results_requested` as it reaches
`_get_status`: `None`, a bool or an int (`False == 0` and `True == 1`
under Python equality). -/
inductive PyOptInt where
  | none
  | bool (b : Bool)
  | int (n : Int)
deriving DecidableEq, Repr

/-- Python `tot_req in {-1, False, None}` (note `False == 0`). -/
def inChoices : PyOptInt → Bool
  | .none => true
  | .bool b => !b
  | .int n => n = -1 || n = 0

/-- The numeric value of a `PyOptInt` when compared against an int
(`bool` is an int subclass in Python; `none` never reaches a comparison
in `_get_status` because `None` is in the choices set). -/
def pyIntVal : PyOptInt → Int
  | .none => 0
  | .bool b => if b then 1 else 0
  | .int n => n

/-- A corpus batch `(corpus_id, schema_name, batch_name, approximate_row_count)`. -/
abbrev Batch := Int × String × String × Int

/-- `batch[-1]`: the approximate row count. -/
def batchSize (b : Batch) : Int := b.2.2.2

/-- `batch[-2]`: the batch name. -/
def batchName (b : Batch) : String := b.2.2.1

/-- `_get_status` from `src/backend/callbacks.py` (lines 357-367). -/
def _get_status (n_results : Int) (tot_req : PyOptInt)
    (done_batches all_batches : List Batch) : String :=
  if done_batches.length = all_batches.length then "finished"
  else if inChoices tot_req then "partial"
  else if n_results ≥ pyIntVal tot_req then "satisfied"
  else "partial"

/-- The status published by the primary-success callback `_query`
(`src/backend/callbacks.py` lines 64-126): the just-finished batch is
appended to `done_batches` (line 74) before `_get_status` is called with
`total_found = total_before_now + n_results` (lines 66, 76). -/
def published_status (total_before n_results : Int) (tot_req : PyOptInt)
    (done all : List Batch) (current : Batch) : String :=
  _get_status (total_before + n_results) tot_req (done ++ [current]) all

/-- The exception classification seen by `_general_failure`: the
user-initiated `Interrupted` type or any other exception type (carrying
its printed name). -/
inductive ExcType where
  | interrupted
  | other (name : String)
deriving DecidableEq, Repr

/-- Python `str(typ)` for the error kind. -/
def excStr : ExcType → String
  | .interrupted => "Interrupted"
  | .other n => n

/-- The websocket failure message assembled by `_general_failure`.  The
`**kwargs`/`**job.kwargs` spreads of the source only add contextual keys
(user, room, query arguments); query-job kwargs contain no
`status`/`kind`/`value`/`action` keys, so they are not modelled. -/
structure FailMsg where
  status : String
  kind : String
  value : String
  action : Option String
deriving DecidableEq, Repr

/-- Python's substring test `needle in hay`. -/
def pyInStr (needle : List Char) : List Char → Bool
  | [] => needle.isEmpty
  | c :: t => needle.isPrefixOf (c :: t) || pyInStr needle t

/-- `_general_failure` from `src/backend/callbacks.py` (lines 230-260):
suppress the message for the `Interrupted` kind, otherwise publish
`status: failed` with kind and value, re-labelled as a timeout when the
value contains `"No such job"`. -/
def _general_failure (typ : ExcType) (value : String) : Option FailMsg :=
  if typ = .interrupted then none
  else
    let base : FailMsg := { status := "failed", kind := excStr typ, value := value, action := none }
    if pyInStr "No such job".data value.data then
      some { base with status := "timeout", action := some "timeout" }
    else some base

/-- The fields of `QueryIteration` consumed by `decide_batch`
(`src/lcpvian/qi.py`). -/
structure QIState where
  currentBatch : Option Batch
  resume : Bool
  isVian : Bool
  full : Bool
  needed : Int
  pageSize : Int
  totalResultsSoFar : Int
  doneBatches : List Batch
  allBatches : List Batch
deriving DecidableEq, Repr

/-- The `for batch in self.all_batches` loop of `decide_batch` (lines
671-690): skip done batches, return immediately in full-corpus mode, return
the first not-done batch while fewer than `min(page_size, 25)` results have
been collected, otherwise return the first not-done batch whose expected
match count reaches `needed` plus the 10 percent buffer, falling back to the
first not-done batch (`ValueError` when there is none).  Exact rational
arithmetic stands in for Python floats. -/
def decideLoop (done : List Batch) (full : Bool) (needed pageSize soFar : Int)
    (proportion : ℚ) : List Batch → Option Batch → Except PyErr (Option Batch)
  | [], firstNotDone =>
    match firstNotDone with
    | none => .error .valueError
    | some b => .ok (some b)
  | b :: rest, firstNotDone =>
    if b ∈ done then decideLoop done full needed pageSize soFar proportion rest firstNotDone
    else if full = true ∨ needed = -1 then .ok (some b)
    else
      let fnd := match firstNotDone with | none => some b | some x => some x
      if pageSize > 0 ∧ soFar < min pageSize 25 then .ok (some b)
      else if (batchSize b : ℚ) * proportion ≥ (needed : ℚ) + (needed : ℚ) * (1 / 10) then
        .ok (some b)
      else decideLoop done full needed pageSize soFar proportion rest fnd

/-- `QueryIteration.decide_batch` from `src/lcpvian/qi.py` (lines 626-690).
Returns the chosen batch (`none` when there is nothing left to query) and
the `no_more_data` flag after the call (assumed `false` before, its
dataclass default).  `buffer = 0.1`; word totals are summed over
`set(done_batches)`. -/
def decide_batch (st : QIState) : Except PyErr (Option Batch × Bool) :=
  match st.currentBatch with
  | some _ => .ok (none, false)
  | none =>
    if h : st.doneBatches ≠ [] ∧ st.resume = true then
      .ok (some (st.doneBatches.getLast h.1),
        decide (st.doneBatches.length = st.allBatches.length))
    else if st.resume = false ∧ st.doneBatches.length = st.allBatches.length then
      .ok (none, true)
    else if st.isVian = true then
      if st.doneBatches ≠ [] then .error .valueError
      else
        match st.allBatches with
        | [] => .error .indexError
        | b :: _ => .ok (some b, false)
    else if st.doneBatches.isEmpty then
      match st.allBatches with
      | [] => .error .indexError
      | b0 :: _ =>
        .ok (some ((st.allBatches.find? (fun x => (batchName x).endsWith "rest")).getD b0),
          false)
    else
      let totalWords : Int := (st.doneBatches.dedup.map batchSize).sum
      if totalWords = 0 then .error .zeroDivisionError
      else
        let proportion : ℚ := (st.totalResultsSoFar : ℚ) / (totalWords : ℚ)
        match decideLoop st.doneBatches st.full st.needed st.pageSize st.totalResultsSoFar
            proportion st.allBatches none with
        | .error e => .error e
        | .ok ob => .ok (ob, false)

/-- The done-batch recording of `QueryIteration.from_manual`
(`src/lcpvian/qi.py` lines 572-579): the current batch is added only when
not already present. -/
def from_manual_done (done : List Batch) (current : Batch) : List Batch :=
  if current ∈ done then done else done ++ [current]

/-- The done-batch recording of the primary-success callback `_query`
(`src/backend/callbacks.py` lines 73-74): the just-finished batch is
appended unconditionally. -/
def query_callback_done (done : List Batch) (current : Batch) : List Batch :=
  done ++ [current]

/-- A post-processing filter for one result-set index.
Modelled from the spec: `_apply_filters` lives in `src/lcpvian/convert.py`,
which is not under `src/`; the spec describes the descriptor as a per-index
filter (predicate plus projection), modelled here as keeping the rows whose
`colIdx`-th cell equals `keepVal`. -/
structure PPFilter where
  colIdx : Nat
  keepVal : PyAtom
deriving DecidableEq, Repr

/-- A post-processing descriptor: filters keyed by result-set index. -/
abbrev PPDesc := List (Int × PPFilter)

/-- A plain result map as carried in a stored stats message. -/
abbrev ResMap := List (Int × List (List PyAtom))

/-- Modelled from the spec: `_apply_filters(results, post_processes)` of the
missing `src/lcpvian/convert.py`, applying the descriptor as a per-index
row filter and leaving unfiltered indices unchanged. -/
def _apply_filters (res : ResMap) (pps : PPDesc) : ResMap :=
  res.map (fun kv =>
    match assocGet pps kv.1 with
    | none => kv
    | some f => (kv.1, kv.2.filter (fun r => r.get? f.colIdx = some f.keepVal)))

/-- The stored stats message consulted by `QueryService.send_all_data`:
the descriptor it was stored under, the unfiltered `full_result` and the
`result` it published (already filtered by the stored descriptor). -/
structure StoredMsg where
  postProcesses : PPDesc
  fullResult : ResMap
  result : ResMap
deriving DecidableEq, Repr

/-- The replay filtering of `QueryService.send_all_data`
(`src/lcpvian/query_service.py` lines 100-109): the result published on a
cache hit.  `pps = kwargs["post_processes"] or payload["post_processes"]`
(a falsy caller descriptor falls back to the stored one), re-filtering
`full_result` only when `pps` is truthy and differs from the stored
descriptor. -/
def send_all_data_result (callerPP : PPDesc) (stored : StoredMsg) : ResMap :=
  let pps := if callerPP ≠ [] then callerPP else stored.postProcesses
  if pps ≠ [] ∧ pps ≠ stored.postProcesses then _apply_filters stored.fullResult pps
  else stored.result

/-- Whether a payload is the descriptor dict. -/
def Payload.isDict : Payload → Bool
  | .dict _ => true
  | .row _ => false

/-- Whether a prepared-segment row matches the match row's segment id
(the comparison of `_make_kwic_line`, on stringified ids). -/
def sentMatches (o0 : PyAtom) (sent : List PyAtom) : Bool :=
  match sent with
  | [] => false
  | s0 :: _ => pyStr s0 = pyStr o0

/-- Every bucket of `k` in an association list is within `tot`. -/
def lenOk (tot : Int) (bs : List (Int × List Payload)) (k : Int) : Prop :=
  ∀ v, assocGet bs k = some v → (v.length : Int) ≤ tot

/-- The observed match density of an iteration: results so far divided by
the deduplicated word total of the done batches. -/
def density (st : QIState) : ℚ :=
  (st.totalResultsSoFar : ℚ) / (((st.doneBatches.dedup.map batchSize).sum : Int) : ℚ)

/-- The batch-selector density condition: the batch's expected match count
reaches `needed` plus the 10 percent buffer. -/
def qualifies (needed : Int) (proportion : ℚ) (b : Batch) : Prop :=
  (batchSize b : ℚ) * proportion ≥ (needed : ℚ) + (needed : ℚ) * (1 / 10)

instance (needed : Int) (proportion : ℚ) (b : Batch) :
    Decidable (qualifies needed proportion b) := by
  unfold qualifies; infer_instance

/-- The boolean return condition of one `decide_batch` loop step for a
quota-bounded, non-full iteration. -/
def retP (done : List Batch) (needed pageSize soFar : Int) (proportion : ℚ) (b : Batch) : Bool :=
  !(decide (b ∈ done)) &&
    (decide (pageSize > 0 ∧ soFar < min pageSize 25) || decide (qualifies needed proportion b))

/-- The boolean not-yet-done condition. -/
def notDoneP (done : List Batch) (b : Batch) : Bool := !(decide (b ∈ done))

/-- Concrete values: a two-plain-result-set descriptor. -/
def d2 : Payload := .dict [⟨some "plain"⟩, ⟨some "plain"⟩]

/-- Concrete values: second-iteration plain rows of result-set 2. -/
def pC : RLine := (2, .row [.str "10", .str "mC"])

/-- Concrete values: second plain row. -/
def pD : RLine := (2, .row [.str "11", .str "mD"])

/-- Concrete values: prepared-segment row for segment 10. -/
def sC : List PyAtom := [.str "10", .str "cC"]

/-- Concrete values: prepared-segment row for segment 11. -/
def sD : List PyAtom := [.str "11", .str "cD"]

/-- Concrete values: the raw result of a second batch. -/
def res2 : List RLine := [(0, d2), pC, pD]

/-- Concrete values: a KWIC row already accumulated from the first batch. -/
def kA : Payload := .row [.str "8", .str "8", .str "cA", .str "mA"]

/-- Concrete values: a second accumulated KWIC row. -/
def kB : Payload := .row [.str "9", .str "9", .str "cB", .str "mB"]

/-- Concrete values: hydration of `pC`. -/
def kC : Payload := .row [.str "10", .str "10", .str "cC", .str "mC"]

/-- Concrete values: hydration of `pD`. -/
def kD : Payload := .row [.str "11", .str "11", .str "cD", .str "mD"]

/-- Concrete values: the cumulative sentence map after the first batch of a
query with `total_results_requested = 2` (already at the quota). -/
def prevMap : Bundle := ⟨some d2, [(2, [kA, kB])]⟩

/-- Concrete values: a batch. -/
def bA : Batch := (1, "sch", "tokenen1", 10)

/-- Concrete values: a larger batch. -/
def bB : Batch := (1, "sch", "tokenen2", 20)

/-- Concrete values: a selector state after one done batch, 30 results so
far, page size 20, 5 more needed. -/
def st5 : QIState := ⟨none, false, false, false, 5, 20, 30, [bA], [bA, bB]⟩

/-- Concrete values: same state early on, 3 results so far. -/
def st5b : QIState := ⟨none, false, false, false, 5, 20, 3, [bA], [bA, bB]⟩

/-- Concrete values: a single-element row payload. -/
def c4a : Payload := .row [.str "a"]

/-- Concrete values: another single-element row payload. -/
def c4b : Payload := .row [.str "b"]

/-- Concrete values: a descriptor declaring result-set 1 plain and
result-set 2 non-plain (a statistics set). -/
def c4desc : Payload := .dict [⟨some "plain"⟩, ⟨some "analysis"⟩]

/-- Concrete values: a batch for the done-batches counterexample. -/
def c7b : Batch := (1, "sch", "tokenen1", 100)

/-- Concrete values: a stored stats message whose descriptor keeps only the
rows whose first cell is `"x"`; `result` is `full_result` filtered by it. -/
def c6stored : StoredMsg :=
  { postProcesses := [(1, ⟨0, .str "x"⟩)]
    fullResult := [(1, [[.str "x"], [.str "y"]])]
    result := [(1, [[.str "x"]])] }

/-! Section: Helper lemmas -/

theorem exceptBindOk {α β : Type} (a : α) (f : α → Except PyErr β) :
    (bind (Except.ok a) f : Except PyErr β) = f a := rfl

theorem exceptBindErr {α β : Type} (e : PyErr) (f : α → Except PyErr β) :
    (bind (Except.error e) f : Except PyErr β) = Except.error e := rfl

theorem assocGet_cons {α : Type} (k0 : Int) (v0 : α) (m : List (Int × α)) (k : Int) :
    assocGet ((k0, v0) :: m) k = if k0 = k then some v0 else assocGet m k := by
  by_cases h : k0 = k <;> simp [assocGet, List.find?, h]

theorem assocGet_set_self {α : Type} (m : List (Int × α)) (k : Int) (v : α) :
    assocGet (assocSet m k v) k = some v := by
  induction m with
  | nil => simp [assocSet, assocGet, List.find?]
  | cons hd tl ih =>
    obtain ⟨k0, v0⟩ := hd
    by_cases h : k0 = k
    · simp [assocSet, h, assocGet_cons]
    · simp [assocSet, h, assocGet_cons, ih]

theorem assocGet_set_ne {α : Type} (m : List (Int × α)) (k k' : Int) (v : α) (h : k' ≠ k) :
    assocGet (assocSet m k v) k' = assocGet m k' := by
  induction m with
  | nil => simp [assocSet, assocGet, List.find?, Ne.symm h]
  | cons hd tl ih =>
    obtain ⟨k0, v0⟩ := hd
    by_cases h2 : k0 = k
    · subst h2
      simp [assocSet, assocGet_cons, Ne.symm h]
    · simp [assocSet, h2, assocGet_cons, ih]

theorem assocGet_not_mem {α : Type} (m : List (Int × α)) (k : Int)
    (h : k ∉ m.map Prod.fst) : assocGet m k = none := by
  induction m with
  | nil => rfl
  | cons hd tl ih =>
    obtain ⟨k0, v0⟩ := hd
    simp only [List.map_cons, List.mem_cons] at h
    push_neg at h
    rw [assocGet_cons, if_neg (Ne.symm h.1), ih h.2]

/-! Section: C2: status classification of the primary-success callback -/

/-- C2: for every invocation of the primary-success callback, the published
status is "finished" if and only if every batch is done (the done list with
the just-finished batch appended has the same length as all_batches);
otherwise it is "satisfied" if and only if a quota is defined
(`total_results_requested` not in Python's `{-1, False, None}`) and
`total_found = total_before_now + n_results` is at least the quota; and it
is "partial" in all remaining cases. -/
theorem C2_published_status (tb nr : Int) (tq : PyOptInt)
    (done all : List Batch) (current : Batch) :
    (published_status tb nr tq done all current = "finished" ↔
      (done ++ [current]).length = all.length)
  ∧ ((done ++ [current]).length ≠ all.length →
      (published_status tb nr tq done all current = "satisfied" ↔
        (inChoices tq = false ∧ tb + nr ≥ pyIntVal tq)))
  ∧ ((done ++ [current]).length ≠ all.length →
      (published_status tb nr tq done all current = "partial" ↔
        (inChoices tq = true ∨ tb + nr < pyIntVal tq))) := by
  unfold published_status _get_status
  split_ifs with h1 h2 h3
  · exact ⟨by simp [h1], fun hne => absurd h1 hne, fun hne => absurd h1 hne⟩
  · refine ⟨iff_of_false (by decide) h1, fun _ => iff_of_false (by decide) ?_,
      fun _ => iff_of_true rfl (Or.inl h2)⟩
    simp [h2]
  · refine ⟨iff_of_false (by decide) h1, fun _ => iff_of_true rfl ⟨by simpa using h2, h3⟩,
      fun _ => iff_of_false (by decide) ?_⟩
    rintro (hc | hlt)
    · exact h2 hc
    · exact absurd h3 (not_le.mpr hlt)
  · refine ⟨iff_of_false (by decide) h1, fun _ => iff_of_false (by decide) ?_,
      fun _ => iff_of_true rfl (Or.inr (not_le.mp h3))⟩
    rintro ⟨-, hge⟩
    exact h3 hge

/-- Witness for C2 at a concrete input: quota 10, 14 results found on the
first of two batches, published status "satisfied". -/
theorem C2_witness :
    published_status 0 14 (.int 10) [] [bA, bB] bB = "satisfied" := by
  have h := C2_published_status 0 14 (.int 10) [] [bA, bB] bB
  exact (h.2.1 (by decide)).mpr (by decide)

/-! Section: C8: general-failure handler -/

/-- C8: for every job failure, the general-failure handler publishes no
message at all exactly when the failure's exception type is the
user-initiated Interrupted kind; otherwise it publishes a message with
status "failed" carrying the error kind and value, re-labelled as a
timeout when the error value indicates a missing job. -/
theorem C8_general_failure (typ : ExcType) (value : String) :
    (_general_failure typ value = none ↔ typ = .interrupted)
  ∧ (∀ msg, _general_failure typ value = some msg →
      msg.kind = excStr typ ∧ msg.value = value ∧
      msg.status = (if pyInStr "No such job".data value.data then "timeout" else "failed") ∧
      (pyInStr "No such job".data value.data = false → msg.action = none)) := by
  unfold _general_failure
  by_cases h : typ = .interrupted
  · simp [h]
  · by_cases h2 : pyInStr "No such job".data value.data
    · simp [h, h2]
    · simp [h, h2]

/-- Witness for C8 at concrete inputs: an interrupt is suppressed; a
missing-job failure is re-labelled as a timeout. -/
theorem C8_witness :
    _general_failure .interrupted "boom" = none ∧
    ({ status := "timeout", kind := "NoSuchJobError", value := "No such job rq:job:a",
       action := some "timeout" : FailMsg }.status =
      (if pyInStr "No such job".data "No such job rq:job:a".data then "timeout" else "failed")) := by
  refine ⟨(C8_general_failure .interrupted "boom").1.mpr rfl, ?_⟩
  exact ((C8_general_failure (.other "NoSuchJobError") "No such job rq:job:a").2 _ (by rfl)).2.2.1

/-! Section: C7: done-batch recording -/

/-- C7 counterexample: starting from a valid state (`done = [c7b]` is a
nodup subset of `all = [c7b]`, and the current batch `c7b` is in
`all_batches`), the primary-success callback's unconditional append
produces a duplicated `done_batches`, falsifying the claim for that
operation.  This state is reachable: a resume request (offset 0) re-enters
the last done batch, and with caching disabled the callback appends it
again. -/
theorem C7_counterexample :
    ([c7b] : List Batch) ⊆ [c7b] ∧ ([c7b] : List Batch).Nodup ∧ c7b ∈ [c7b] ∧
    query_callback_done [c7b] c7b = [c7b, c7b] ∧
    ¬ (query_callback_done [c7b] c7b).Nodup := by
  refine ⟨by simp, by simp, by simp, rfl, ?_⟩
  intro h
  simp [query_callback_done] at h

/-- C7 (amended): the manual-continuation construction preserves the
invariant unconditionally (its add is guarded by a membership test), while
the primary-success callback's append preserves it exactly when the current
batch is not already done. -/
theorem C7_amended (all done : List Batch) (current : Batch)
    (hsub : done ⊆ all) (hnd : done.Nodup) (hcur : current ∈ all) :
    ((from_manual_done done current ⊆ all) ∧ (from_manual_done done current).Nodup)
  ∧ (current ∉ done →
      (query_callback_done done current ⊆ all) ∧ (query_callback_done done current).Nodup) := by
  constructor
  · unfold from_manual_done
    by_cases h : current ∈ done
    · simp [h, hsub, hnd]
    · rw [if_neg h]
      constructor
      · intro x hx
        rcases List.mem_append.mp hx with hx | hx
        · exact hsub hx
        · simpa using List.mem_singleton.mp hx ▸ hcur
      · rw [List.nodup_append]
        exact ⟨hnd, List.nodup_singleton _, by simpa using h⟩
  · intro h
    unfold query_callback_done
    constructor
    · intro x hx
      rcases List.mem_append.mp hx with hx | hx
      · exact hsub hx
      · simpa using List.mem_singleton.mp hx ▸ hcur
    · rw [List.nodup_append]
      exact ⟨hnd, List.nodup_singleton _, by simpa using h⟩

/-- Witness for C7 (amended) at a concrete input: adding a new batch keeps
the done list a nodup subset under both operations. -/
theorem C7_witness :
    (from_manual_done [bA] bB ⊆ [bA, bB] ∧ (from_manual_done [bA] bB).Nodup)
  ∧ (query_callback_done [bA] bB ⊆ [bA, bB] ∧ (query_callback_done [bA] bB).Nodup) := by
  have h := C7_amended [bA, bB] [bA] bB (by simp) (by decide) (by simp)
  exact ⟨h.1, h.2 (by decide)⟩

/-! Section: C4: union of a per-batch bucket into the cumulative map -/

/-- C4 counterexample: with result-set 2 declared non-plain by the
descriptor, unioning an incoming bucket replaces nothing; the newer
accumulation is appended after the existing one, falsifying the claim that
non-plain indices are replaced. -/
theorem C4_counterexample :
    _union_results ⟨some c4desc, [(2, [c4a])]⟩ ⟨none, [(2, [c4b])]⟩
        = ⟨some c4desc, [(2, [c4a, c4b])]⟩ ∧
    ([c4a, c4b] : List Payload) ≠ [c4b] := by
  exact ⟨rfl, by decide⟩

theorem unionFold_get (ps : List (Int × List Payload)) (bs : List (Int × List Payload))
    (hnd : (ps.map Prod.fst).Nodup) (k : Int) :
    assocGet (ps.foldl
      (fun bs kv => assocSet bs kv.1 (((assocGet bs kv.1).getD []) ++ kv.2)) bs) k =
      match assocGet ps k with
      | none => assocGet bs k
      | some v => some (((assocGet bs k).getD []) ++ v) := by
  induction ps generalizing bs with
  | nil => rfl
  | cons hd tl ih =>
    obtain ⟨k0, v0⟩ := hd
    simp only [List.map_cons, List.nodup_cons] at hnd
    rw [List.foldl_cons, ih _ hnd.2, assocGet_cons]
    by_cases h : k0 = k
    · subst h
      rw [if_pos rfl, assocGet_not_mem tl k0 hnd.1, assocGet_set_self]
    · rw [if_neg h, assocGet_set_ne _ _ _ _ (Ne.symm h)]

/-- C4 (amended): when a per-batch bucket is unioned into the cumulative
map, the descriptor at key 0 is kept unchanged once present (taken from the
incoming bucket otherwise), and every non-zero index — plain and non-plain
alike — is extended, the incoming rows appended after the existing ones;
nothing is replaced. -/
theorem C4_amended (s i : Bundle) (hnd : (i.buckets.map Prod.fst).Nodup) (k : Int) :
    (assocGet (_union_results s i).buckets k =
      match assocGet i.buckets k with
      | none => assocGet s.buckets k
      | some v => some (((assocGet s.buckets k).getD []) ++ v))
  ∧ ((_union_results s i).desc = match s.desc with | some d => some d | none => i.desc) := by
  exact ⟨unionFold_get i.buckets s.buckets hnd k, rfl⟩

/-- Witness for C4 (amended) at a concrete input. -/
theorem C4_witness :
    assocGet (_union_results ⟨none, [(3, [c4a])]⟩ ⟨some c4desc, [(3, [c4b]), (4, [c4a])]⟩).buckets 3
      = some [c4a, c4b] := by
  have h := (C4_amended ⟨none, [(3, [c4a])]⟩ ⟨some c4desc, [(3, [c4b]), (4, [c4a])]⟩
    (by decide) 3).1
  simpa using h

/-! Section: C6: replay filtering on a cache hit -/

/-- C6 counterexample: the caller's current descriptor is empty (no
filtering requested) and differs from the stored one; the replay keeps the
stored message's filtered rows instead of publishing the rows filtered by
the caller's descriptor (which would keep both rows), falsifying the claim
for that corner. -/
theorem C6_counterexample :
    send_all_data_result [] c6stored = [(1, [[PyAtom.str "x"]])]
  ∧ _apply_filters c6stored.fullResult [] = [(1, [[PyAtom.str "x"], [PyAtom.str "y"]])]
  ∧ ([] : PPDesc) ≠ c6stored.postProcesses
  ∧ ([(1, [[PyAtom.str "x"]])] : ResMap) ≠ [(1, [[PyAtom.str "x"], [PyAtom.str "y"]])] := by
  exact ⟨rfl, rfl, by decide, by decide⟩

/-- C6 (amended): on a cache hit, when the caller's current post-processing
descriptor is non-empty and differs from the one the cached entry was
stored under, the replay publishes the full stored rows filtered by the
caller's descriptor; an empty caller descriptor falls back to the stored
message's own filtering. -/
theorem C6_amended (callerPP : PPDesc) (stored : StoredMsg)
    (h1 : callerPP ≠ []) (h2 : callerPP ≠ stored.postProcesses) :
    send_all_data_result callerPP stored = _apply_filters stored.fullResult callerPP := by
  unfold send_all_data_result
  simp [h1, h2]

/-- Witness for C6 (amended) at a concrete input: a caller descriptor on
result-set 1 keeping rows whose first cell is "y". -/
theorem C6_witness :
    send_all_data_result [(1, ⟨0, .str "y"⟩)] c6stored
      = _apply_filters c6stored.fullResult [(1, ⟨0, .str "y"⟩)] :=
  C6_amended [(1, ⟨0, .str "y"⟩)] c6stored (by decide) (by decide)

/-! Section: C10: no plain result set means IndexError -/

theorem addLoop_nil_kwics (so_far : Int) (unlimited : Bool) (offset restart : Option Int)
    (tot : Int) (kwic : Bool) (sents : List (List PyAtom)) :
    ∀ (lines : List RLine) (bundle : Bundle) (counts : List (Int × Int)),
      (∀ p ∈ lines, p.1 = 0 → p.2.isDict = true) →
      ∃ bc, addLoop [] so_far unlimited offset restart tot kwic sents bundle counts lines
        = .ok bc := by
  intro lines
  induction lines with
  | nil => exact fun bundle counts _ => ⟨(bundle, counts), rfl⟩
  | cons hd tl ih =>
    intro bundle counts hz
    obtain ⟨key, rest⟩ := hd
    have hz' : ∀ p ∈ tl, p.1 = 0 → p.2.isDict = true := fun p hp => hz p (by simp [hp])
    by_cases hk : key = 0
    · subst hk
      cases rest with
      | dict rs =>
        obtain ⟨bc, hbc⟩ := ih { bundle with desc := some (.dict rs) } counts hz'
        exact ⟨bc, by simpa [addLoop] using hbc⟩
      | row r =>
        have := hz (0, .row r) (by simp) rfl
        simp [Payload.isDict] at this
    · by_cases hkw : kwic = true
      · obtain ⟨bc, hbc⟩ := ih bundle counts hz'
        refine ⟨bc, ?_⟩
        simp only [addLoop]
        rw [if_neg hk, if_neg (by simp), if_neg (by simp), if_pos hkw]
        exact hbc
      · obtain ⟨bc, hbc⟩ := ih (appendBucket bundle key rest) counts hz'
        refine ⟨bc, ?_⟩
        simp only [addLoop]
        rw [if_neg hk, if_neg (by simp), if_neg (by simp), if_neg hkw]
        exact hbc

/-- C10: `_add_results` is total only when its input declares at least one
plain result set: whenever the descriptor row (or the `result_sets`
argument) yields an empty set of plain indices — so that no plain bucket
can have been truncated — the final count lookup `counts[list(kwics)[0]]`
raises an IndexError instead of returning a `(bundle, count)` pair. -/
theorem C10_no_plain (result : List RLine) (so_far : Int) (unlimited : Bool)
    (offset restart : Option Int) (total_requested : Int) (kwic : Bool)
    (sents : List (List PyAtom)) (result_sets : Option (List RSetDesc))
    (hk : computeKwics result result_sets = .ok [])
    (hz : ∀ p ∈ result, p.1 = 0 → p.2.isDict = true) :
    _add_results result so_far unlimited offset restart total_requested kwic sents result_sets
      = .error .indexError := by
  obtain ⟨⟨b0, c0⟩, hbc⟩ := addLoop_nil_kwics so_far unlimited offset restart
    total_requested kwic sents result ⟨none, []⟩ [] hz
  unfold _add_results
  rw [hk, exceptBindOk, hbc, exceptBindOk]
  simp

/-- Witness for C10 at a concrete input: a descriptor declaring zero result
sets and one data row. -/
theorem C10_witness :
    _add_results [(0, Payload.dict []), (1, Payload.row [.str "v"])] 0 false none none 10
      false [] none = .error .indexError :=
  C10_no_plain [(0, Payload.dict []), (1, Payload.row [.str "v"])] 0 false none none 10
    false [] none (by rfl) (by decide)

/-! Section: C1: truncation and the union -/

/-- C1 counterexample: a query with two plain result sets and
`total_results_requested = 2`, `full_flag` unset.  After the first batch
the cumulative map already holds 2 KWIC rows for result-set 2
(`prevMap`), while the published running total counted result-set 1
(`counts[list(kwics)[0]]`), which stayed at 0; the second iteration's
bundle therefore passes the quota guard, and the union leaves result-set 2
with 4 rows and no truncation: the post-union length exceeds
`total_results_requested`. -/
theorem C1_counterexample :
    _add_results res2 0 false none none 2 true [sC, sD] none
      = .ok (⟨some d2, [(2, [kC, kD])]⟩, 0)
  ∧ _union_results prevMap ⟨some d2, [(2, [kC, kD])]⟩
      = ⟨some d2, [(2, [kA, kB, kC, kD])]⟩
  ∧ ¬ ((([kA, kB, kC, kD] : List Payload).length : Int) ≤ 2) := by
  exact ⟨rfl, rfl, by decide⟩

theorem pySliceTo_length_le {α : Type} (n : Int) (hn : 0 ≤ n) (l : List α) :
    (((pySliceTo n l).length : Int)) ≤ n := by
  unfold pySliceTo
  rw [if_pos hn]
  have h1 : (l.take n.toNat).length ≤ n.toNat := by simp [List.length_take]
  omega

theorem truncStep_lenOk_self (tot : Int) (htot : 0 ≤ tot) (acc : Bundle × Option Int)
    (k : Int) : lenOk tot (truncStep tot acc k).1.buckets k := by
  unfold truncStep
  cases hg : assocGet acc.1.buckets k with
  | none => intro v hv; rw [hv] at hg; cases hg
  | some w =>
    dsimp only
    by_cases hlen : (w.length : Int) > tot
    · rw [if_pos hlen]
      intro v hv
      simp only [assocGet_set_self] at hv
      cases hv
      exact pySliceTo_length_le tot htot w
    · rw [if_neg hlen]
      intro v hv
      rw [hv] at hg
      cases hg
      omega

theorem truncStep_lenOk_preserve (tot : Int) (htot : 0 ≤ tot) (acc : Bundle × Option Int)
    (k k' : Int) (h : lenOk tot acc.1.buckets k) :
    lenOk tot (truncStep tot acc k').1.buckets k := by
  by_cases he : k' = k
  · subst he
    exact truncStep_lenOk_self tot htot acc _
  · unfold truncStep
    cases hg : assocGet acc.1.buckets k' with
    | none => exact h
    | some w =>
      dsimp only
      by_cases hlen : (w.length : Int) > tot
      · rw [if_pos hlen]
        intro v hv
        rw [assocGet_set_ne acc.1.buckets k' k (pySliceTo tot w) (fun hh => he hh.symm)] at hv
        exact h v hv
      · rw [if_neg hlen]
        exact h

theorem truncFold_lenOk_preserve (tot : Int) (htot : 0 ≤ tot) (ks : List Int)
    (acc : Bundle × Option Int) (k : Int) (h : lenOk tot acc.1.buckets k) :
    lenOk tot (ks.foldl (truncStep tot) acc).1.buckets k := by
  induction ks generalizing acc with
  | nil => exact h
  | cons k0 tl ih => exact ih _ (truncStep_lenOk_preserve tot htot acc k k0 h)

theorem truncFold_lenOk_mem (tot : Int) (htot : 0 ≤ tot) (ks : List Int)
    (acc : Bundle × Option Int) (k : Int) (hk : k ∈ ks) :
    lenOk tot (ks.foldl (truncStep tot) acc).1.buckets k := by
  induction ks generalizing acc with
  | nil => cases hk
  | cons k0 tl ih =>
    rcases List.mem_cons.mp hk with rfl | hk'
    · exact truncFold_lenOk_preserve tot htot tl _ k (truncStep_lenOk_self tot htot acc k)
    · exact ih _ hk'

/-- C1 (amended): the truncation happens inside `_add_results`, before the
union: every plain index's list in the per-iteration bundle returned by
`_add_results` has length at most `total_results_requested` (when the
latter is non-negative).  `_union_results` itself never truncates, so
after the union a plain index's cumulative list can exceed
`total_results_requested` even when the full flag is unset (see the
counterexample). -/
theorem C1_amended (result : List RLine) (so_far : Int) (unlimited : Bool)
    (offset restart : Option Int) (total_requested : Int) (kwic : Bool)
    (sents : List (List PyAtom)) (result_sets : Option (List RSetDesc))
    (htot : 0 ≤ total_requested) (kws : List Int)
    (hkw : computeKwics result result_sets = .ok kws)
    (b : Bundle) (n : Int)
    (hok : _add_results result so_far unlimited offset restart total_requested kwic sents
      result_sets = .ok (b, n))
    (k : Int) (hk : k ∈ kws) (v : List Payload)
    (hv : assocGet b.buckets k = some v) :
    (v.length : Int) ≤ total_requested := by
  unfold _add_results at hok
  rw [hkw, exceptBindOk] at hok
  cases hadd : addLoop kws so_far unlimited offset restart total_requested kwic sents
      ⟨none, []⟩ [] result with
  | error e =>
    rw [hadd, exceptBindErr] at hok
    cases hok
  | ok bc =>
    rw [hadd, exceptBindOk] at hok
    obtain ⟨b0, c0⟩ := bc
    have hfold := truncFold_lenOk_mem total_requested htot kws (b0, none) k hk
    simp only at hok
    cases h2 : (kws.foldl (truncStep total_requested) (b0, none)).2 with
    | some m =>
      rw [h2] at hok
      simp only [Except.ok.injEq, Prod.mk.injEq] at hok
      rw [← hok.1] at hv
      exact hfold v hv
    | none =>
      rw [h2] at hok
      cases kws with
      | nil => cases hk
      | cons k0 tl =>
        simp only [Except.ok.injEq, Prod.mk.injEq] at hok
        rw [← hok.1] at hv
        exact hfold v hv

/-- Witness for C1 (amended) at a concrete input: `total_requested = 1`,
one row admitted into the plain bucket of result-set 2. -/
theorem C1_witness :
    (([Payload.row [PyAtom.str "10", PyAtom.str "10", PyAtom.str "cC", PyAtom.str "mC"]] :
      List Payload).length : Int) ≤ 1 :=
  C1_amended res2 0 false none none 1 true [sC, sD] none (by decide) [1, 2] rfl
    ⟨some d2, [(2, [Payload.row [.str "10", .str "10", .str "cC", .str "mC"]])]⟩ 0 rfl
    2 (by decide) _ rfl

/-! Section: C9: sentence hydration -/

/-- C9 counterexample: the primary returns one plain row for segment id 5
while the sentence job only covers segment id 6; `_make_kwic_line` raises
ValueError and `_add_results` aborts — the row is not delivered
unhydrated, falsifying the claim that rows whose segment lacks a sentence
are still delivered. -/
theorem C9_counterexample :
    _add_results [(0, Payload.dict [⟨some "plain"⟩]), (1, Payload.row [.str "5", .str "m"])]
      0 true none none (-1) true [[PyAtom.str "6", PyAtom.str "c"]] none
      = .error .valueError := by
  rfl

theorem makeKwic_found (sents : List (List PyAtom)) (o0 : PyAtom) (orest : List PyAtom)
    (hs : ([] : List PyAtom) ∉ sents) (hc : sents.any (sentMatches o0) = true) :
    ∃ out, _make_kwic_line (o0 :: orest) sents = .ok out := by
  induction sents with
  | nil => cases hc
  | cons sent more ih =>
    have hs' : ([] : List PyAtom) ∉ more := fun hmem => hs (by simp [hmem])
    cases sent with
    | nil => exact absurd (by simp) hs
    | cons s0 srest =>
      by_cases hm : pyStr s0 = pyStr o0
      · refine ⟨o0 :: (PyAtom.str (pyStr s0) :: srest) ++ orest, ?_⟩
        simp only [_make_kwic_line]
        rw [if_pos hm]
      · have hc' : more.any (sentMatches o0) = true := by
          simpa [sentMatches, hm] using hc
        obtain ⟨out, hout⟩ := ih hs' hc'
        exact ⟨out, by simpa [_make_kwic_line, hm] using hout⟩

theorem makeKwic_not_found (sents : List (List PyAtom)) (o0 : PyAtom) (orest : List PyAtom)
    (hs : ([] : List PyAtom) ∉ sents)
    (hc : sents.all (fun s => !sentMatches o0 s) = true) :
    _make_kwic_line (o0 :: orest) sents = .error .valueError := by
  induction sents with
  | nil => rfl
  | cons sent more ih =>
    have hs' : ([] : List PyAtom) ∉ more := fun hmem => hs (by simp [hmem])
    cases sent with
    | nil => exact absurd (by simp) hs
    | cons s0 srest =>
      have hm : sentMatches o0 (s0 :: srest) = false := by
        have := List.all_eq_true.mp hc (s0 :: srest) (by simp)
        simpa using this
      have hm' : ¬ pyStr s0 = pyStr o0 := by simpa [sentMatches] using hm
      have hc' : more.all (fun s => !sentMatches o0 s) = true := by
        rw [List.all_eq_true] at hc ⊢
        exact fun s hsmem => hc s (by simp [hsmem])
      simpa [_make_kwic_line, hm'] using ih hs' hc'

theorem addLoop_covered (kws : List Int) (so_far : Int) (offset : Option Int) (tot : Int)
    (sents : List (List PyAtom)) (hs : ([] : List PyAtom) ∉ sents) :
    ∀ (lines : List RLine) (bundle : Bundle) (counts : List (Int × Int)),
      (∀ p ∈ lines, p.1 ≠ 0) →
      (∀ p ∈ lines, p.1 ∈ kws → ∃ r0 rrest, p.2 = Payload.row (r0 :: rrest) ∧
        sents.any (sentMatches r0) = true) →
      ∃ bc, addLoop kws so_far true offset none tot true sents bundle counts lines
        = .ok bc := by
  intro lines
  induction lines with
  | nil => exact fun bundle counts _ _ => ⟨(bundle, counts), rfl⟩
  | cons hd tl ih =>
    intro bundle counts hz hrow
    obtain ⟨key, rest⟩ := hd
    have hz' : ∀ p ∈ tl, p.1 ≠ 0 := fun p hp => hz p (by simp [hp])
    have hrow' : ∀ p ∈ tl, p.1 ∈ kws → ∃ r0 rrest, p.2 = Payload.row (r0 :: rrest) ∧
        sents.any (sentMatches r0) = true := fun p hp => hrow p (by simp [hp])
    have hk0 : key ≠ 0 := hz (key, rest) (by simp)
    by_cases hk : key ∈ kws
    · obtain ⟨r0, rrest, hr, hcov⟩ := hrow (key, rest) (by simp) hk
      dsimp only at hr
      obtain ⟨out, hout⟩ := makeKwic_found sents r0 rrest hs hcov
      obtain ⟨bc, hbc⟩ := ih (appendBucket bundle key (.row out)) (incrCount counts key)
        hz' hrow'
      refine ⟨bc, ?_⟩
      simp only [addLoop]
      rw [if_neg hk0, if_neg (by simp), if_pos (by simp [hk])]
      rw [if_neg (by simp), if_neg (by simp), if_neg (by simp)]
      rw [hr]
      dsimp only
      rw [hout]
      exact hbc
    · obtain ⟨bc, hbc⟩ := ih bundle counts hz' hrow'
      refine ⟨bc, ?_⟩
      simp only [addLoop]
      rw [if_neg hk0, if_neg (by simp [hk]), if_neg (by simp [hk]), if_pos (by simp)]
      exact hbc

theorem addLoop_uncovered (kws : List Int) (so_far : Int) (offset : Option Int) (tot : Int)
    (sents : List (List PyAtom)) (hs : ([] : List PyAtom) ∉ sents) :
    ∀ (lines : List RLine) (bundle : Bundle) (counts : List (Int × Int)),
      (∀ p ∈ lines, p.1 ≠ 0) →
      (∀ p ∈ lines, p.1 ∈ kws → ∃ r0 rrest, p.2 = Payload.row (r0 :: rrest)) →
      (∃ p ∈ lines, p.1 ∈ kws ∧ ∃ r0 rrest, p.2 = Payload.row (r0 :: rrest) ∧
        sents.all (fun s => !sentMatches r0 s) = true) →
      addLoop kws so_far true offset none tot true sents bundle counts lines
        = .error .valueError := by
  intro lines
  induction lines with
  | nil => rintro bundle counts _ _ ⟨p, hp, -⟩; cases hp
  | cons hd tl ih =>
    intro bundle counts hz hrow hex
    obtain ⟨key, rest⟩ := hd
    have hz' : ∀ p ∈ tl, p.1 ≠ 0 := fun p hp => hz p (by simp [hp])
    have hrow' : ∀ p ∈ tl, p.1 ∈ kws → ∃ r0 rrest, p.2 = Payload.row (r0 :: rrest) :=
      fun p hp => hrow p (by simp [hp])
    have hk0 : key ≠ 0 := hz (key, rest) (by simp)
    by_cases hk : key ∈ kws
    · obtain ⟨r0, rrest, hr⟩ := hrow (key, rest) (by simp) hk
      dsimp only at hr
      by_cases hcov : sents.any (sentMatches r0) = true
      · -- this line hydrates fine; the offending line is further on
        have hex' : ∃ p ∈ tl, p.1 ∈ kws ∧ ∃ r0 rrest, p.2 = Payload.row (r0 :: rrest) ∧
            sents.all (fun s => !sentMatches r0 s) = true := by
          obtain ⟨p, hp, hpk, q0, qrest, hq, hall⟩ := hex
          rcases List.mem_cons.mp hp with rfl | hp'
          · exfalso
            dsimp only at hq
            rw [hr] at hq
            cases hq
            have := List.all_eq_true.mp hall
            rcases List.any_eq_true.mp hcov with ⟨s, hsmem, hsm⟩
            have hneg := this s hsmem
            rw [hsm] at hneg
            cases hneg
          · exact ⟨p, hp', hpk, q0, qrest, hq, hall⟩
        obtain ⟨out, hout⟩ := makeKwic_found sents r0 rrest hs hcov
        have hrec := ih (appendBucket bundle key (.row out)) (incrCount counts key)
          hz' hrow' hex'
        simp only [addLoop]
        rw [if_neg hk0, if_neg (by simp), if_pos (by simp [hk])]
        rw [if_neg (by simp), if_neg (by simp), if_neg (by simp)]
        rw [hr]
        dsimp only
        rw [hout]
        exact hrec
      · -- this line is uncovered: ValueError here
        have hall : sents.all (fun s => !sentMatches r0 s) = true := by
          rw [List.all_eq_true]
          intro s hsmem
          by_contra hno
          exact hcov (List.any_eq_true.mpr ⟨s, hsmem, by simpa using hno⟩)
        have herr := makeKwic_not_found sents r0 rrest hs hall
        simp only [addLoop]
        rw [if_neg hk0, if_neg (by simp), if_pos (by simp [hk])]
        rw [if_neg (by simp), if_neg (by simp), if_neg (by simp)]
        rw [hr]
        dsimp only
        rw [herr]
    · have hex' : ∃ p ∈ tl, p.1 ∈ kws ∧ ∃ r0 rrest, p.2 = Payload.row (r0 :: rrest) ∧
          sents.all (fun s => !sentMatches r0 s) = true := by
        obtain ⟨p, hp, hpk, rest'⟩ := hex
        rcases List.mem_cons.mp hp with rfl | hp'
        · exact absurd hpk hk
        · exact ⟨p, hp', hpk, rest'⟩
      have hrec := ih bundle counts hz' hrow' hex'
      simp only [addLoop]
      rw [if_neg hk0, if_neg (by simp [hk]), if_neg (by simp [hk]), if_pos (by simp)]
      exact hrec

/-- C9 (amended): in the hydrating pass (`kwic = true`, unlimited, no
restart), when every plain row's segment id has a matching sentence the
aggregation succeeds and every emitted row is the sentence splice computed
by `_make_kwic_line`; when some plain row's segment id has no matching
sentence, `_add_results` raises ValueError instead of delivering the row
unhydrated. -/
theorem C9_amended (result : List RLine) (so_far : Int) (offset : Option Int)
    (total_requested : Int) (sents : List (List PyAtom))
    (result_sets : Option (List RSetDesc)) (kws : List Int)
    (hkw : computeKwics result result_sets = .ok kws) (hkne : kws ≠ [])
    (hz : ∀ p ∈ result, p.1 ≠ 0)
    (hrow : ∀ p ∈ result, p.1 ∈ kws → ∃ r0 rrest, p.2 = Payload.row (r0 :: rrest))
    (hs : ([] : List PyAtom) ∉ sents) :
    ((∀ p ∈ result, p.1 ∈ kws → ∀ r0 rrest, p.2 = Payload.row (r0 :: rrest) →
        sents.any (sentMatches r0) = true) →
      ∃ out, _add_results result so_far true offset none total_requested true sents result_sets
        = .ok out)
  ∧ ((∃ p ∈ result, p.1 ∈ kws ∧ ∃ r0 rrest, p.2 = Payload.row (r0 :: rrest) ∧
        sents.all (fun s => !sentMatches r0 s) = true) →
      _add_results result so_far true offset none total_requested true sents result_sets
        = .error .valueError)
  ∧ (∀ r0 rrest s0 srest more, sentMatches r0 (s0 :: srest) = true →
      _make_kwic_line (r0 :: rrest) ((s0 :: srest) :: more)
        = .ok (r0 :: (PyAtom.str (pyStr s0) :: srest) ++ rrest)) := by
  refine ⟨?_, ?_, ?_⟩
  · intro hcov
    have hrow2 : ∀ p ∈ result, p.1 ∈ kws → ∃ r0 rrest, p.2 = Payload.row (r0 :: rrest) ∧
        sents.any (sentMatches r0) = true := by
      intro p hp hpk
      obtain ⟨r0, rrest, hr⟩ := hrow p hp hpk
      exact ⟨r0, rrest, hr, hcov p hp hpk r0 rrest hr⟩
    obtain ⟨⟨b0, c0⟩, hbc⟩ := addLoop_covered kws so_far offset total_requested sents hs
      result ⟨none, []⟩ [] hz hrow2
    unfold _add_results
    rw [hkw, exceptBindOk, hbc, exceptBindOk]
    cases h2 : (kws.foldl (truncStep total_requested) (b0, none)).2 with
    | some m =>
      refine ⟨((kws.foldl (truncStep total_requested) (b0, none)).1, m), ?_⟩
      simp only [h2]
    | none =>
      cases hkl : kws with
      | nil => exact absurd hkl hkne
      | cons k0 tl =>
        rw [hkl] at h2
        exact ⟨(((k0 :: tl).foldl (truncStep total_requested) (b0, none)).1, getCount c0 k0),
          by dsimp only; rw [h2]⟩
  · intro hex
    have herr := addLoop_uncovered kws so_far offset total_requested sents hs
      result ⟨none, []⟩ [] hz hrow hex
    unfold _add_results
    rw [hkw, exceptBindOk, herr, exceptBindErr]
  · intro r0 rrest s0 srest more hm
    have hm' : pyStr s0 = pyStr r0 := by simpa [sentMatches] using hm
    simp only [_make_kwic_line]
    rw [if_pos hm']

/-- Witness for C9 (amended) at a concrete input: one plain result set,
both rows covered by sentences; the aggregation succeeds and the splice is
as stated. -/
theorem C9_witness :
    (∃ out, _add_results [pC, pD] 0 true none none 2 true [sC, sD]
      (some [⟨some "plain"⟩, ⟨some "plain"⟩]) = .ok out)
  ∧ _make_kwic_line [PyAtom.str "10", PyAtom.str "mC"] [sC, sD]
      = .ok [PyAtom.str "10", PyAtom.str "10", PyAtom.str "cC", PyAtom.str "mC"] := by
  have h := C9_amended [pC, pD] 0 none 2 [sC, sD]
    (some [⟨some "plain"⟩, ⟨some "plain"⟩]) [1, 2] rfl (by decide)
    (by decide)
    (by intro p hp hpk
        fin_cases hp
        · exact ⟨.str "10", [.str "mC"], rfl⟩
        · exact ⟨.str "11", [.str "mD"], rfl⟩)
    (by decide)
  refine ⟨h.1 ?_, ?_⟩
  · intro p hp hpk r0 rrest hr
    fin_cases hp
    · cases hr; decide
    · cases hr; decide
  · have h3 := h.2.2 (.str "10") [.str "mC"] (.str "10") [.str "cC"] [sD] (by decide)
    simpa [sC, pyStr] using h3

/-! Section: C5: the batch selector under quota -/

theorem retP_eq_true (done : List Batch) (needed pageSize soFar : Int) (proportion : ℚ)
    (b : Batch) :
    retP done needed pageSize soFar proportion b = true ↔
      (b ∉ done ∧ ((pageSize > 0 ∧ soFar < min pageSize 25) ∨
        qualifies needed proportion b)) := by
  simp [retP, Bool.and_eq_true, Bool.or_eq_true, decide_eq_true_eq]

theorem notDoneP_eq_true (done : List Batch) (b : Batch) :
    notDoneP done b = true ↔ b ∉ done := by
  simp [notDoneP]

theorem decideLoop_spec (done : List Batch) (needed pageSize soFar : Int)
    (proportion : ℚ) (hneed : needed ≠ -1) :
    ∀ (l : List Batch) (fnd : Option Batch),
      decideLoop done false needed pageSize soFar proportion l fnd =
        match l.find? (retP done needed pageSize soFar proportion) with
        | some b => .ok (some b)
        | none =>
          match fnd with
          | some x => .ok (some x)
          | none =>
            match l.find? (notDoneP done) with
            | some b => .ok (some b)
            | none => .error .valueError := by
  intro l
  induction l with
  | nil => intro fnd; cases fnd <;> rfl
  | cons b rest ih =>
    intro fnd
    by_cases hd : b ∈ done
    · have hr : ¬ retP done needed pageSize soFar proportion b = true := by
        rw [retP_eq_true]
        rintro ⟨hbd, -⟩
        exact hbd hd
      have hn : ¬ notDoneP done b = true := by
        rw [notDoneP_eq_true]
        exact fun hbd => hbd hd
      rw [List.find?_cons_of_neg _ hr, List.find?_cons_of_neg _ hn]
      simp only [decideLoop, if_pos hd]
      exact ih fnd
    · by_cases hc1 : pageSize > 0 ∧ soFar < min pageSize 25
      · have hr : retP done needed pageSize soFar proportion b = true :=
          (retP_eq_true done needed pageSize soFar proportion b).mpr ⟨hd, Or.inl hc1⟩
        rw [List.find?_cons_of_pos _ hr]
        simp only [decideLoop, if_neg hd]
        rw [if_neg (by simp [hneed]), if_pos hc1]
      · by_cases hquc : qualifies needed proportion b
        · have hr : retP done needed pageSize soFar proportion b = true :=
            (retP_eq_true done needed pageSize soFar proportion b).mpr ⟨hd, Or.inr hquc⟩
          rw [List.find?_cons_of_pos _ hr]
          simp only [decideLoop, if_neg hd]
          rw [if_neg (by simp [hneed]), if_neg hc1, if_pos (by exact hquc)]
        · have hr : ¬ retP done needed pageSize soFar proportion b = true := by
            rw [retP_eq_true]
            rintro ⟨-, hca | hqa⟩
            · exact hc1 hca
            · exact hquc hqa
          have hn : notDoneP done b = true := (notDoneP_eq_true done b).mpr hd
          rw [List.find?_cons_of_neg _ hr]
          simp only [decideLoop, if_neg hd]
          rw [if_neg (by simp [hneed]), if_neg hc1, if_neg (by exact hquc)]
          rw [ih]
          cases hf : rest.find? (retP done needed pageSize soFar proportion) with
          | some b' => rfl
          | none =>
            cases fnd with
            | some x => rfl
            | none => rw [List.find?_cons_of_pos _ hn]

theorem find?_some_min (p : Batch → Bool) :
    ∀ (l : List Batch), l.Sorted (fun a b => batchSize a ≤ batchSize b) →
      ∀ b, l.find? p = some b → ∀ x ∈ l, p x = true → batchSize b ≤ batchSize x := by
  intro l
  induction l with
  | nil => intro _ b hb; cases hb
  | cons hd tl ih =>
    intro hs b hb x hx hpx
    rw [List.sorted_cons] at hs
    by_cases hp : p hd = true
    · rw [List.find?_cons_of_pos _ hp] at hb
      cases hb
      rcases List.mem_cons.mp hx with rfl | hx'
      · exact le_refl _
      · exact hs.1 x hx'
    · rw [List.find?_cons_of_neg _ hp] at hb
      rcases List.mem_cons.mp hx with rfl | hx'
      · exact absurd hpx hp
      · exact ih hs.2 b hb x hx' hpx

theorem find?_exists {α : Type} (p : α → Bool) (l : List α) (hx : ∃ x ∈ l, p x = true) :
    ∃ b, l.find? p = some b := by
  cases hf : l.find? p with
  | some b => exact ⟨b, rfl⟩
  | none =>
    obtain ⟨x, hxl, hpx⟩ := hx
    rw [List.find?_eq_none] at hf
    exact absurd hpx (by simpa using hf x hxl)

/-- C5: for every non-first, non-full-corpus, quota-bounded iteration
(some batch already done, full flag unset, `needed` not -1, not a
resumption, with remaining batches): if `total_results_so_far` is below
`min(page_size, 25)` the selector returns the smallest not-yet-done batch;
otherwise it returns the smallest not-yet-done batch whose approximate row
count times the observed density (results so far over words processed so
far) is at least `needed * 1.1`, and when no batch qualifies it returns
the smallest not-yet-done batch. -/
theorem C5_decide_batch (st : QIState)
    (hcb : st.currentBatch = none) (hres : st.resume = false) (hvian : st.isVian = false)
    (hfull : st.full = false) (hneed : st.needed ≠ -1)
    (hdone : st.doneBatches ≠ [])
    (hlen : st.doneBatches.length ≠ st.allBatches.length)
    (hsf : 0 ≤ st.totalResultsSoFar)
    (hwords : 0 < (st.doneBatches.dedup.map batchSize).sum)
    (hsorted : st.allBatches.Sorted (fun a b => batchSize a ≤ batchSize b))
    (hex : ∃ x ∈ st.allBatches, x ∉ st.doneBatches) :
    ∃ b, decide_batch st = .ok (some b, false) ∧ b ∈ st.allBatches ∧ b ∉ st.doneBatches ∧
      ((st.totalResultsSoFar < min st.pageSize 25 →
          ∀ x ∈ st.allBatches, x ∉ st.doneBatches → batchSize b ≤ batchSize x)
       ∧ (¬ st.totalResultsSoFar < min st.pageSize 25 →
          (((∃ x ∈ st.allBatches, x ∉ st.doneBatches ∧ qualifies st.needed (density st) x) →
            qualifies st.needed (density st) b ∧
            ∀ x ∈ st.allBatches, x ∉ st.doneBatches →
              qualifies st.needed (density st) x → batchSize b ≤ batchSize x)
          ∧ ((¬ ∃ x ∈ st.allBatches, x ∉ st.doneBatches ∧ qualifies st.needed (density st) x) →
            ∀ x ∈ st.allBatches, x ∉ st.doneBatches → batchSize b ≤ batchSize x)))) := by
  have hred : decide_batch st =
      match decideLoop st.doneBatches false st.needed st.pageSize st.totalResultsSoFar
        (density st) st.allBatches none with
      | .error e => .error e
      | .ok ob => .ok (ob, false) := by
    unfold decide_batch
    rw [hcb]
    rw [dif_neg (by simp [hres])]
    rw [if_neg (fun h => hlen h.2)]
    rw [if_neg (by simp [hvian])]
    rw [if_neg (by simp [List.isEmpty_iff, hdone])]
    rw [if_neg (by omega)]
    rw [hfull]
    rfl
  rw [decideLoop_spec st.doneBatches st.needed st.pageSize st.totalResultsSoFar
    (density st) hneed st.allBatches none] at hred
  by_cases hc : st.totalResultsSoFar < min st.pageSize 25
  · have hps : st.pageSize > 0 := by omega
    have hpred : retP st.doneBatches st.needed st.pageSize st.totalResultsSoFar (density st)
        = notDoneP st.doneBatches := by
      funext x
      by_cases hx : x ∈ st.doneBatches
      · have h1 : retP st.doneBatches st.needed st.pageSize st.totalResultsSoFar
            (density st) x = false := by
          rw [← Bool.not_eq_true, retP_eq_true]
          rintro ⟨hxd, -⟩
          exact hxd hx
        have h2 : notDoneP st.doneBatches x = false := by
          rw [← Bool.not_eq_true, notDoneP_eq_true]
          exact fun hxd => hxd hx
        rw [h1, h2]
      · have h1 : retP st.doneBatches st.needed st.pageSize st.totalResultsSoFar
            (density st) x = true :=
          (retP_eq_true _ _ _ _ _ _).mpr ⟨hx, Or.inl ⟨hps, hc⟩⟩
        have h2 : notDoneP st.doneBatches x = true := (notDoneP_eq_true _ _).mpr hx
        rw [h1, h2]
    rw [hpred] at hred
    obtain ⟨b, hb⟩ := find?_exists (notDoneP st.doneBatches) st.allBatches (by
      obtain ⟨x, hxl, hxd⟩ := hex
      exact ⟨x, hxl, (notDoneP_eq_true _ _).mpr hxd⟩)
    rw [hb] at hred
    have hmem := List.mem_of_find?_eq_some hb
    have hnd : b ∉ st.doneBatches := (notDoneP_eq_true _ _).mp (List.find?_some hb)
    have hmin := find?_some_min (notDoneP st.doneBatches) st.allBatches hsorted b hb
    refine ⟨b, hred, hmem, hnd, fun _ => ?_, fun hcon => absurd hc hcon⟩
    intro x hx hxd
    exact hmin x hx ((notDoneP_eq_true _ _).mpr hxd)
  · have hc1 : ¬ (st.pageSize > 0 ∧ st.totalResultsSoFar < min st.pageSize 25) :=
      fun h => hc h.2
    by_cases hq : ∃ x ∈ st.allBatches, x ∉ st.doneBatches ∧
        qualifies st.needed (density st) x
    · obtain ⟨b, hb⟩ := find?_exists
        (retP st.doneBatches st.needed st.pageSize st.totalResultsSoFar (density st))
        st.allBatches (by
          obtain ⟨x, hxl, hxd, hxq⟩ := hq
          exact ⟨x, hxl, (retP_eq_true _ _ _ _ _ _).mpr ⟨hxd, Or.inr hxq⟩⟩)
      rw [hb] at hred
      have hmem := List.mem_of_find?_eq_some hb
      obtain ⟨hnd, hca | hqb⟩ := (retP_eq_true _ _ _ _ _ _).mp (List.find?_some hb)
      · exact absurd hca hc1
      have hmin := find?_some_min
        (retP st.doneBatches st.needed st.pageSize st.totalResultsSoFar (density st))
        st.allBatches hsorted b hb
      refine ⟨b, hred, hmem, hnd, fun hcon => absurd hcon hc, fun _ =>
        ⟨fun _ => ⟨hqb, ?_⟩, fun hnq => absurd hq hnq⟩⟩
      intro x hx hxd hxq
      exact hmin x hx ((retP_eq_true _ _ _ _ _ _).mpr ⟨hxd, Or.inr hxq⟩)
    · have hnone : st.allBatches.find?
          (retP st.doneBatches st.needed st.pageSize st.totalResultsSoFar (density st))
          = none := by
        rw [List.find?_eq_none]
        intro x hx hpx
        obtain ⟨hxd, hca | hxq⟩ := (retP_eq_true _ _ _ _ _ _).mp (by simpa using hpx)
        · exact hc1 hca
        · exact hq ⟨x, hx, hxd, hxq⟩
      rw [hnone] at hred
      obtain ⟨b, hb⟩ := find?_exists (notDoneP st.doneBatches) st.allBatches (by
        obtain ⟨x, hxl, hxd⟩ := hex
        exact ⟨x, hxl, (notDoneP_eq_true _ _).mpr hxd⟩)
      rw [hb] at hred
      have hmem := List.mem_of_find?_eq_some hb
      have hnd : b ∉ st.doneBatches := (notDoneP_eq_true _ _).mp (List.find?_some hb)
      have hmin := find?_some_min (notDoneP st.doneBatches) st.allBatches hsorted b hb
      refine ⟨b, hred, hmem, hnd, fun hcon => absurd hcon hc, fun _ =>
        ⟨fun hq' => absurd hq' hq, fun _ => ?_⟩⟩
      intro x hx hxd
      exact hmin x hx ((notDoneP_eq_true _ _).mpr hxd)

/-- Witness for C5 at a concrete input: one done batch of size 10 with 30
results so far, page size 20 and 5 still needed; the larger batch
qualifies on density and is selected. -/
theorem C5_witness :
    ∃ b, decide_batch st5 = .ok (some b, false) ∧ b ∈ st5.allBatches ∧
      b ∉ st5.doneBatches := by
  obtain ⟨b, h1, h2, h3, -⟩ := C5_decide_batch st5 rfl rfl rfl rfl (by decide) (by decide)
    (by decide) (by decide) (by decide) (by decide) ⟨bB, by decide, by decide⟩
  exact ⟨b, h1, h2, h3⟩
